import Mathlib

/-!
Shallow embedding of `perun/logic/runner.py` (the job execution pipeline of
the perun performance-measurement tool) and proofs of the frozen claims
about it.  Python dictionaries are embedded as insertion-ordered association
lists, Python dynamic values that matter to the claims as small inductive
types, and the external collaborators (plugin module resolution, the VCS,
profile storage, logging) as explicit environments whose observable calls
are recorded in event traces.
-/

namespace Perun

/-! ### Status enumerations

Modelled from the spec: `CollectStatus` and `PostprocessStatus` live in
`perun.utils.helpers`, which is not part of the sources; the spec describes
them as two independent two-valued enumerations with OK/ERROR, whose raw
ordinals are 0 for OK and 1 for ERROR.  Equality follows Python `Enum`
semantics: members of distinct enumerations are never equal, and an enum
member is never equal to a plain integer. -/

inductive CollectStatus
  | OK
  | ERROR
deriving DecidableEq, Repr

inductive PostprocessStatus
  | OK
  | ERROR
deriving DecidableEq, Repr

/-- Underlying ordinal of a `CollectStatus` member (modelled from the spec:
OK ↦ 0, ERROR ↦ 1). -/
def CollectStatus.value : CollectStatus → Int
  | .OK => 0
  | .ERROR => 1

/-- Underlying ordinal of a `PostprocessStatus` member (modelled from the
spec: OK ↦ 0, ERROR ↦ 1). -/
def PostprocessStatus.value : PostprocessStatus → Int
  | .OK => 0
  | .ERROR => 1

/-- A named enum member of one of the two status enumerations: the type of
the `expected_status` argument of `is_status_ok` and of the statuses the
runner functions themselves produce. -/
inductive Status
  | collect (s : CollectStatus)
  | postprocess (s : PostprocessStatus)
deriving DecidableEq, Repr

/-- Underlying ordinal (`expected_status.value` in the source). -/
def Status.value : Status → Int
  | .collect s => s.value
  | .postprocess s => s.value

/-- A status value as returned by a third-party plugin phase: either a named
enum member or a raw integer. -/
inductive RetStatus
  | collect (s : CollectStatus)
  | postprocess (s : PostprocessStatus)
  | int (n : Int)
deriving DecidableEq, Repr

/-- View a named enum member as a returned status value. -/
def Status.toRet : Status → RetStatus
  | .collect s => .collect s
  | .postprocess s => .postprocess s

/-- Python `==` on the values that can appear as statuses: enum members of
the same enumeration compare by variant, integers compare as integers, and
everything else (cross-enumeration, enum-vs-int) compares unequal, as for
plain Python `Enum` classes. -/
def pyEq : RetStatus → RetStatus → Bool
  | .collect a, .collect b => a = b
  | .postprocess a, .postprocess b => a = b
  | .int a, .int b => a = b
  | _, _ => false

/-- Embedding of `is_status_ok(returned_status, expected_status)`
(runner.py, lines 131-145):
`returned_status == expected_status or returned_status == expected_status.value`. -/
def is_status_ok (returned_status : RetStatus) (expected_status : Status) : Bool :=
  pyEq returned_status expected_status.toRet ||
    pyEq returned_status (.int expected_status.value)

/-! ### Python dictionaries as insertion-ordered association lists -/

/-- Replace the value at key `k` in place if present, else append
(one step of Python `dict` assignment). -/
def setKey {α : Type} (d : List (String × α)) (k : String) (v : α) :
    List (String × α) :=
  if d.any (fun p => p.1 == k) then
    d.map (fun p => if p.1 == k then (p.1, v) else p)
  else
    d ++ [(k, v)]

/-- Python `d.update(u)`. -/
def dictUpdate {α : Type} (d u : List (String × α)) : List (String × α) :=
  u.foldl (fun acc kv => setKey acc kv.1 kv.2) d

/-- Build a Python dict from a (possibly duplicated-key) list of pairs, as a
dict comprehension does: later occurrences of a key overwrite earlier ones
in place. -/
def pyDict {α : Type} (l : List (String × α)) : List (String × α) :=
  l.foldl (fun acc kv => setKey acc kv.1 kv.2) []

/-- Python `d[k]` / `d.get(k)`: the value at the (unique after `pyDict`)
first occurrence of `k`. -/
def dictGet {α : Type} (d : List (String × α)) (k : String) : Option α :=
  (d.find? (fun p => p.1 == k)).map (fun p => p.2)

/-- Python `d.get(k, default)`. -/
def dictGetD {α : Type} (d : List (String × α)) (k : String) (dflt : α) : α :=
  (dictGet d k).getD dflt

/-- Python `k in d.keys()`. -/
def dictContains {α : Type} (d : List (String × α)) (k : String) : Bool :=
  d.any (fun p => p.1 == k)

/-! ### Data model: units, jobs, profiles, parameter bags -/

/-- A profile is an opaque structured mapping; only presence/emptiness and
identity of entries matter to the claims. -/
abbrev Profile := List (String × String)

/-- Parameter mapping of one configured unit. -/
abbrev UnitParams := List (String × String)

/-- Embedding of the `Unit` named tuple of `perun.utils.helpers`
(modelled from the spec: `{name: string, params: mapping}`). -/
structure Unit where
  name : String
  params : UnitParams
deriving DecidableEq, Repr

/-- Embedding of the `Job` named tuple of `perun.utils.helpers`
(modelled from the spec: collector, ordered postprocessors, cmd, workload,
args). -/
structure Job where
  collector : Unit
  postprocessors : List Unit
  cmd : String
  workload : String
  args : String
deriving DecidableEq, Repr

/-- A value stored in a phase parameter bag: enough structure for the
claims (strings for job fields and unit parameters, profiles for the
`profile` key; the machine's empty-dict result is `Val.profile []`). -/
inductive Val
  | str (s : String)
  | profile (p : Profile)
deriving DecidableEq, Repr

/-- The mutable parameter bag threaded through the phases of one unit
invocation. -/
abbrev Params := List (String × Val)

/-! ### Phase state machine (`run_all_phases_for`, runner.py lines 148-190) -/

/-- Result of invoking one plugin phase function: a returned
`(status, message, updated_params_or_None)` triple, or a raised exception
carrying its text. -/
inductive PhaseResult
  | ret (status : RetStatus) (msg : String) (updated : Option Params)
  | exc (msg : String)

/-- A resolved plugin module: its `__name__` and its attributes, where
`phases ph` is `getattr(module, ph, None)`. -/
structure RunnerModule where
  name : String
  phases : String → Option (Params → PhaseResult)

/-- The `ok_status` local of `run_all_phases_for`:
`CollectStatus.OK if runner_type == 'collector' else PostprocessStatus.OK`. -/
def ok_status_of (runner_type : String) : Status :=
  if runner_type = "collector" then .collect .OK else .postprocess .OK

/-- The `error_status` local of `run_all_phases_for`. -/
def error_status_of (runner_type : String) : Status :=
  if runner_type = "collector" then .collect .ERROR else .postprocess .ERROR

/-- The `runner_verb` local: `runner_type[:-2]`. -/
def runner_verb_of (runner_type : String) : String :=
  runner_type.dropRight 2

/-- The format fragment `("_" + runner_verb)*(phase != runner_verb)` used in
the phase-failure message. -/
def phase_suffix (phase runner_verb : String) : String :=
  if phase = runner_verb then "" else "_" ++ runner_verb

/-- One guarded phase invocation: the `try`/`except` around
`phase_function(**runner_params)`.  An exception is caught and replaced by
the triple `(error_status, str(exc), {})`. -/
def call_phase (error_status : Status) (phase_function : Params → PhaseResult)
    (params : Params) : RetStatus × String × Option Params :=
  match phase_function params with
  | .ret st msg updated => (st, msg, updated)
  | .exc m => (error_status.toRet, m, some [])

/-- Outcome of the `for phase in [...]` loop of `run_all_phases_for`: either
the accumulated parameter bag after all phases, or the formatted message of
an early `return` (the machine then returns `(error_status, msg, {})`). -/
inductive LoopRes
  | ok (finalParams : Params)
  | fail (msg : String)
deriving DecidableEq

/-- The phase loop of `run_all_phases_for` over a list of phase names,
instrumented with the list of phases whose function was actually invoked.
For each phase: if present, invoke it under the exception guard, merge
`updated_params or {}` into the bag, and stop with the formatted error
message unless `is_status_ok`; if absent, stop with the
`missing <verb>()` message when it is the primary phase, else skip it. -/
def run_phase_list (runner : RunnerModule) (runner_verb : String)
    (ok_status error_status : Status) :
    List String → Params → LoopRes × List String
  | [], params => (.ok params, [])
  | phase :: rest, params =>
    match runner.phases phase with
    | some phase_function =>
      let r := call_phase error_status phase_function params
      let params' := dictUpdate params (r.2.2.getD [])
      if is_status_ok r.1 ok_status then
        let k := run_phase_list runner runner_verb ok_status error_status rest params'
        (k.1, phase :: k.2)
      else
        (.fail ("error while " ++ phase ++ phase_suffix phase runner_verb ++
          " phase: " ++ r.2.1), [phase])
    | none =>
      if phase = runner_verb then
        (.fail ("missing " ++ runner_verb ++ "() function for " ++ runner.name), [])
      else
        run_phase_list runner runner_verb ok_status error_status rest params

/-- Embedding of `run_all_phases_for(runner, runner_type, runner_params)`
(runner.py lines 148-190), instrumented with the list of invoked phases.
Runs `before`, the primary verb and `after` in order, then requires the key
`profile` in the final bag and returns `(ok_status, "", params['profile'])`,
or the corresponding error triple. -/
def run_all_phases_for (runner : RunnerModule) (runner_type : String)
    (runner_params : Params) : (Status × String × Val) × List String :=
  let ok_status := ok_status_of runner_type
  let error_status := error_status_of runner_type
  let runner_verb := runner_verb_of runner_type
  match run_phase_list runner runner_verb ok_status error_status
      ["before", runner_verb, "after"] runner_params with
  | (.fail msg, tr) => ((error_status, msg, Val.profile []), tr)
  | (.ok finalParams, tr) =>
    match dictGet finalParams "profile" with
    | none => ((error_status,
        "missing generated profile for " ++ runner_type ++ " " ++ runner.name,
        Val.profile []), tr)
    | some p => ((ok_status, "", p), tr)

/-! ### Job matrix builder (`construct_job_matrix`, runner.py lines 23-93) -/

/-- The nested `**kwargs` parameter mapping:
`kwargs[<unit_type> + "_params"][<unit name>]` is a unit's parameter dict. -/
abbrev Kwargs := List (String × List (String × UnitParams))

/-- Embedding of the `construct_unit` helper inside `construct_job_matrix`:
`Unit(unit, ukwargs.get(unit_type + "_params", {}).get(unit, {}))`. -/
def construct_unit (unit : String) (unit_type : String) (ukwargs : Kwargs) : Unit :=
  ⟨unit, dictGetD (dictGetD ukwargs (unit_type ++ "_params") []) unit []⟩

/-- Embedding of `construct_job_matrix(cmd, args, workload, collector,
postprocessor, **kwargs)` (runner.py lines 23-93).  The nested dict
comprehension becomes `pyDict` over mapped lists (the `str(...)` coercions
are identities, the inputs already being strings), `args or ['']` becomes
the explicit empty-list test, and the job count is the same nested
accumulation the source performs. -/
def construct_job_matrix (cmd args workload collector postprocessor : List String)
    (kwargs : Kwargs) : List (String × List (String × List Job)) × Nat :=
  let collector_pairs := collector.map (fun c => construct_unit c "collector" kwargs)
  let postprocessors := postprocessor.map (fun p => construct_unit p "postprocessor" kwargs)
  let matrix := pyDict (cmd.map (fun b =>
    (b, pyDict (workload.map (fun w =>
      (w, collector_pairs.flatMap (fun c =>
        (if args = [] then [""] else args).map (fun a =>
          Job.mk c postprocessors b w a))))))))
  let number_of_jobs := matrix.foldl (fun acc bv =>
    bv.2.foldl (fun acc2 wv =>
      wv.2.foldl (fun acc3 j => acc3 + (1 + j.postprocessors.length)) acc2) acc) 0
  (matrix, number_of_jobs)

/-! ### Per-revision job execution and revision replay
(runner.py lines 330-431)

The collaborator calls that the loop layer makes — `run_collector`,
`profile.finalize_profile_for_job`, `run_postprocessor`,
`store_generated_profile`, `profile.extract_job_from_profile` — are
abstracted into an environment of result oracles, and every such call is
recorded in an event trace.  `run_collector`/`run_postprocessor` resolve
plugin modules through `perun.utils.get_module`, an external collaborator,
so their observable result pair is the right interface here.  Modelled from
the spec: `log.error`, which reports these failures, only prints a
diagnostic and never aborts the run ("the run continues maximally rather
than stopping at the first error"). -/

/-- One observable collaborator call of the per-revision job loop. -/
inductive Event
  | collect (job : Job) (status : Status) (prof : Profile)
  | postprocess (u : Unit) (job : Job) (inp : Profile) (status : Status) (outp : Profile)
  | store (prof : Profile) (job : Job)
deriving DecidableEq, Repr

/-- Result oracles for the collaborator calls of the job loop. -/
structure Env where
  runCollector : Job → Status × Profile
  finalize : Profile → Job → Profile
  runPostprocessor : Unit → Job → Profile → Status × Profile
  extractJob : Profile → Job

/-- The inner `for postprocessor in job.postprocessors` loop of
`run_jobs_on_current_working_dir` (runner.py lines 387-392): each
postprocessor is invoked with the profile produced so far, which is
rebound to its output before the status check; the `continue` on a failed
status or empty profile is the last statement of the loop body, so it skips
nothing and the iteration proceeds to the next postprocessor either way.
Returns the recorded invocations and the final profile. -/
def run_post_chain (env : Env) (job : Job) :
    List Unit → Profile → List Event × Profile
  | [], prof => ([], prof)
  | postprocessor :: rest, prof =>
    let r := env.runPostprocessor postprocessor job prof
    let k := run_post_chain env job rest r.2
    (Event.postprocess postprocessor job prof r.1 r.2 :: k.1, k.2)

/-- The body of the innermost `for job in jobs_per_workload` loop of
`run_jobs_on_current_working_dir` (runner.py lines 375-395): run the
collector; on a non-OK status or empty profile `continue` to the next job;
otherwise finalize the profile, run the postprocessor chain, and store the
resulting profile. -/
def run_job_for (env : Env) (job : Job) : List Event :=
  let c := env.runCollector job
  if c.1 ≠ Status.collect CollectStatus.OK ∨ c.2 = [] then
    [Event.collect job c.1 c.2]
  else
    let prof := env.finalize c.2 job
    let k := run_post_chain env job job.postprocessors prof
    Event.collect job c.1 c.2 :: (k.1 ++ [Event.store k.2 job])

/-- Embedding of `run_jobs_on_current_working_dir(pcs, job_matrix,
number_of_jobs)` (runner.py lines 360-395): iterate the matrix in
`(cmd, workload, job)` nesting order (`number_of_jobs` only feeds progress
printing). -/
def run_jobs_on_current_working_dir (env : Env)
    (job_matrix : List (String × List (String × List Job)))
    (number_of_jobs : Nat) : List Event :=
  let _ := number_of_jobs
  job_matrix.flatMap (fun bv => bv.2.flatMap (fun wv => wv.2.flatMap (run_job_for env)))

/-- A minor version: only the checksum is read by this core. -/
structure MinorVersion where
  checksum : String
deriving DecidableEq, Repr

/-- One observable step of the revision replayer. -/
inductive REvent
  | acquire
  | release
  | checkout (checksum : String)
  | prephase (phase : String) (failed : Bool)
  | jobs (events : List Event)
deriving DecidableEq, Repr

/-- Environment of the revision replayer: the job-loop oracles plus whether
the configured command list of a pre-phase fails
(`utils.run_safely_list_of_commands` raising `CalledProcessError`). -/
structure RunEnv extends Env where
  prephaseFails : String → Bool

/-- Embedding of `run_prephase_commands(phase, ...)` (runner.py lines
330-357): runs the configured commands of the phase; a failure is caught
and reported.  Modelled from the spec: the `log.error` report does not
abort, so the function returns normally either way. -/
def run_prephase_commands (env : RunEnv) (phase : String) : List REvent :=
  [REvent.prephase phase (env.prephaseFails phase)]

/-- Embedding of `run_jobs(pcs, minor_version_list, job_matrix,
number_of_jobs)` (runner.py lines 398-410): one `with vcs.CleanState(...)`
acquisition around the whole loop; per minor version a checkout of its
checksum, the `pre_run` pre-phase, and the full job matrix. -/
def run_jobs (env : RunEnv) (minor_version_list : List MinorVersion)
    (job_matrix : List (String × List (String × List Job)))
    (number_of_jobs : Nat) : List REvent :=
  [REvent.acquire] ++
    (minor_version_list.flatMap (fun minor_version =>
      [REvent.checkout minor_version.checksum] ++
      run_prephase_commands env "pre_run" ++
      [REvent.jobs (run_jobs_on_current_working_dir env.toEnv job_matrix number_of_jobs)])) ++
  [REvent.release]

/-- The job built by `run_postprocessor_on_profile`: the job extracted from
the profile with the new postprocessor unit appended to its postprocessor
list (`profile_job.postprocessors.append(postprocessor_unit)`). -/
def appended_job (env : Env) (prof : Profile) (postprocessor_name : String)
    (postprocessor_params : UnitParams) : Job :=
  let profile_job := env.extractJob prof
  { profile_job with
    postprocessors := profile_job.postprocessors ++
      [⟨postprocessor_name, postprocessor_params⟩] }

/-- Embedding of `run_postprocessor_on_profile(prof, postprocessor_name,
postprocessor_params)` (runner.py lines 304-327): run the appended
postprocessor on the profile; store the processed profile exactly when the
returned status equals `PostprocessStatus.OK` and the *input* profile is
truthy.  Returns the status the source returns, plus the event trace. -/
def run_postprocessor_on_profile (env : Env) (prof : Profile)
    (postprocessor_name : String) (postprocessor_params : UnitParams) :
    Status × List Event :=
  let postprocessor_unit : Unit := ⟨postprocessor_name, postprocessor_params⟩
  let profile_job := appended_job env prof postprocessor_name postprocessor_params
  let r := env.runPostprocessor postprocessor_unit profile_job prof
  (r.1,
    Event.postprocess postprocessor_unit profile_job prof r.1 r.2 ::
      (if r.1 = Status.postprocess PostprocessStatus.OK ∧ prof ≠ [] then
        [Event.store r.2 profile_job]
      else
        []))

/-! ### Basic lemmas about the phase loop and the machine wrapper -/

theorem run_phase_list_nil (runner : RunnerModule) (verb : String)
    (okS errS : Status) (params : Params) :
    run_phase_list runner verb okS errS [] params = (.ok params, []) := rfl

theorem run_phase_list_present_ok (runner : RunnerModule) (verb : String)
    (okS errS : Status) (phase : String) (rest : List String) (params : Params)
    (f : Params → PhaseResult) (hp : runner.phases phase = some f)
    (hok : is_status_ok (call_phase errS f params).1 okS = true) :
    run_phase_list runner verb okS errS (phase :: rest) params =
      ((run_phase_list runner verb okS errS rest
          (dictUpdate params ((call_phase errS f params).2.2.getD []))).1,
       phase :: (run_phase_list runner verb okS errS rest
          (dictUpdate params ((call_phase errS f params).2.2.getD []))).2) := by
  simp only [run_phase_list, hp, hok, if_true]

theorem run_phase_list_present_fail (runner : RunnerModule) (verb : String)
    (okS errS : Status) (phase : String) (rest : List String) (params : Params)
    (f : Params → PhaseResult) (hp : runner.phases phase = some f)
    (hok : is_status_ok (call_phase errS f params).1 okS = false) :
    run_phase_list runner verb okS errS (phase :: rest) params =
      (.fail ("error while " ++ phase ++ phase_suffix phase verb ++
        " phase: " ++ (call_phase errS f params).2.1), [phase]) := by
  simp only [run_phase_list, hp, hok, Bool.false_eq_true, if_false]

theorem run_phase_list_absent_verb (runner : RunnerModule) (verb : String)
    (okS errS : Status) (rest : List String) (params : Params)
    (hp : runner.phases verb = none) :
    run_phase_list runner verb okS errS (verb :: rest) params =
      (.fail ("missing " ++ verb ++ "() function for " ++ runner.name), []) := by
  simp [run_phase_list, hp]

theorem run_phase_list_absent_skip (runner : RunnerModule) (verb : String)
    (okS errS : Status) (phase : String) (rest : List String) (params : Params)
    (hp : runner.phases phase = none) (hv : phase ≠ verb) :
    run_phase_list runner verb okS errS (phase :: rest) params =
      run_phase_list runner verb okS errS rest params := by
  simp only [run_phase_list, hp, hv, if_false]

theorem run_phase_list_trace_sublist (runner : RunnerModule) (verb : String)
    (okS errS : Status) (ps : List String) :
    ∀ params : Params, (run_phase_list runner verb okS errS ps params).2.Sublist ps := by
  induction ps with
  | nil => intro params; simp [run_phase_list_nil]
  | cons phase rest ih =>
    intro params
    cases hp : runner.phases phase with
    | some f =>
      by_cases hok : is_status_ok (call_phase errS f params).1 okS = true
      · rw [run_phase_list_present_ok runner verb okS errS phase rest params f hp hok]
        exact (ih _).cons₂ phase
      · rw [run_phase_list_present_fail runner verb okS errS phase rest params f hp
          (Bool.not_eq_true _ ▸ hok)]
        simp
    | none =>
      by_cases hv : phase = verb
      · subst hv
        rw [run_phase_list_absent_verb runner phase okS errS rest params hp]
        simp
      · rw [run_phase_list_absent_skip runner verb okS errS phase rest params hp hv]
        exact (ih params).cons phase

theorem run_all_phases_for_fail (runner : RunnerModule) (runner_type : String)
    (params : Params) (msg : String) (tr : List String)
    (hrun : run_phase_list runner (runner_verb_of runner_type)
      (ok_status_of runner_type) (error_status_of runner_type)
      ["before", runner_verb_of runner_type, "after"] params = (.fail msg, tr)) :
    run_all_phases_for runner runner_type params =
      ((error_status_of runner_type, msg, Val.profile []), tr) := by
  simp only [run_all_phases_for, hrun]

theorem run_all_phases_for_ok (runner : RunnerModule) (runner_type : String)
    (params finalParams : Params) (tr : List String)
    (hrun : run_phase_list runner (runner_verb_of runner_type)
      (ok_status_of runner_type) (error_status_of runner_type)
      ["before", runner_verb_of runner_type, "after"] params = (.ok finalParams, tr)) :
    run_all_phases_for runner runner_type params =
      match dictGet finalParams "profile" with
      | none => ((error_status_of runner_type,
          "missing generated profile for " ++ runner_type ++ " " ++ runner.name,
          Val.profile []), tr)
      | some p => ((ok_status_of runner_type, "", p), tr) := by
  simp only [run_all_phases_for, hrun]

theorem run_all_phases_for_trace (runner : RunnerModule) (runner_type : String)
    (params : Params) :
    (run_all_phases_for runner runner_type params).2 =
      (run_phase_list runner (runner_verb_of runner_type)
        (ok_status_of runner_type) (error_status_of runner_type)
        ["before", runner_verb_of runner_type, "after"] params).2 := by
  rcases hrun : run_phase_list runner (runner_verb_of runner_type)
      (ok_status_of runner_type) (error_status_of runner_type)
      ["before", runner_verb_of runner_type, "after"] params with ⟨res, tr⟩
  cases res with
  | fail msg => rw [run_all_phases_for_fail runner runner_type params msg tr hrun]
  | ok finalParams =>
    rw [run_all_phases_for_ok runner runner_type params finalParams tr hrun]
    cases dictGet finalParams "profile" <;> rfl

theorem is_status_ok_error_status (runner_type : String)
    (h : runner_type = "collector" ∨ runner_type = "postprocessor") :
    is_status_ok (error_status_of runner_type).toRet (ok_status_of runner_type) = false := by
  rcases h with h | h <;> subst h <;> decide

theorem call_phase_exc (errS : Status) (f : Params → PhaseResult) (params : Params)
    (m : String) (hf : f params = .exc m) :
    call_phase errS f params = (errS.toRet, m, some []) := by
  simp only [call_phase, hf]

theorem call_phase_ret (errS : Status) (f : Params → PhaseResult) (params : Params)
    (st : RetStatus) (msg : String) (u : Option Params)
    (hf : f params = .ret st msg u) :
    call_phase errS f params = (st, msg, u) := by
  simp only [call_phase, hf]

/-! ### Claim theorems for the status rule and the phase machine -/

/-- C4: `is_status_ok` judges a returned status OK exactly when it equals
the OK enumerator itself or equals that enumerator's underlying ordinal
value, so a phase returning the raw ordinal of a member is treated exactly
like one returning the named member, for both the collect and the
postprocess status enumerations. -/
theorem is_status_ok_spec :
    (∀ r : RetStatus,
      (is_status_ok r (.collect .OK) = true ↔ r = .collect .OK ∨ r = .int 0) ∧
      (is_status_ok r (.postprocess .OK) = true ↔
        r = .postprocess .OK ∨ r = .int 0)) ∧
    (∀ s : CollectStatus,
      is_status_ok (.int s.value) (.collect .OK) =
        is_status_ok (.collect s) (.collect .OK)) ∧
    (∀ s : PostprocessStatus,
      is_status_ok (.int s.value) (.postprocess .OK) =
        is_status_ok (.postprocess s) (.postprocess .OK)) := by
  refine ⟨fun r => ⟨?_, ?_⟩, fun s => by cases s <;> decide, fun s => by cases s <;> decide⟩
  · cases r with
    | collect s => cases s <;> decide
    | postprocess s => cases s <;> decide
    | int n =>
      simp [is_status_ok, pyEq, Status.toRet, Status.value, CollectStatus.value]
  · cases r with
    | collect s => cases s <;> decide
    | postprocess s => cases s <;> decide
    | int n =>
      simp [is_status_ok, pyEq, Status.toRet, Status.value, PostprocessStatus.value]

/-- C1: the machine invokes the present phases strictly in the order
`before`, primary verb, `after` (the invocation trace is an in-order
sublist of that list); from any point on, a present phase whose guarded
call yields a non-OK status makes the loop stop at once with
`(fail, [that phase])` — the message naming the phase and carrying its own
message — so no later phase is invoked; a failed loop makes the machine
return `(ERROR, message, {})`; and in particular a failure at `before`
yields that error result with only `before` ever invoked, so neither the
primary phase nor `after` runs. -/
theorem run_all_phases_for_order_and_stop (runner : RunnerModule)
    (runner_type : String) (params : Params)
    (h : runner_type = "collector" ∨ runner_type = "postprocessor") :
    (run_all_phases_for runner runner_type params).2.Sublist
      ["before", runner_verb_of runner_type, "after"] ∧
    (∀ (phase : String) (rest : List String) (q : Params)
       (f : Params → PhaseResult),
       runner.phases phase = some f →
       is_status_ok (call_phase (error_status_of runner_type) f q).1
         (ok_status_of runner_type) = false →
       run_phase_list runner (runner_verb_of runner_type)
         (ok_status_of runner_type) (error_status_of runner_type)
         (phase :: rest) q =
         (.fail ("error while " ++ phase ++
            phase_suffix phase (runner_verb_of runner_type) ++ " phase: " ++
            (call_phase (error_status_of runner_type) f q).2.1), [phase])) ∧
    (∀ (msg : String) (tr : List String),
       run_phase_list runner (runner_verb_of runner_type)
         (ok_status_of runner_type) (error_status_of runner_type)
         ["before", runner_verb_of runner_type, "after"] params =
           (.fail msg, tr) →
       run_all_phases_for runner runner_type params =
         ((error_status_of runner_type, msg, Val.profile []), tr)) ∧
    (∀ f : Params → PhaseResult,
       runner.phases "before" = some f →
       is_status_ok (call_phase (error_status_of runner_type) f params).1
         (ok_status_of runner_type) = false →
       run_all_phases_for runner runner_type params =
         ((error_status_of runner_type,
           "error while " ++ "before" ++
             phase_suffix "before" (runner_verb_of runner_type) ++ " phase: " ++
             (call_phase (error_status_of runner_type) f params).2.1,
           Val.profile []), ["before"])) := by
  refine ⟨?_, ?_, ?_, ?_⟩
  · rw [run_all_phases_for_trace]
    exact run_phase_list_trace_sublist _ _ _ _ _ _
  · intro phase rest q f hp hok
    exact run_phase_list_present_fail _ _ _ _ _ _ _ _ hp hok
  · intro msg tr hrun
    exact run_all_phases_for_fail _ _ _ _ _ hrun
  · intro f hp hok
    exact run_all_phases_for_fail _ _ _ _ _
      (run_phase_list_present_fail _ _ _ _ _ _ _ _ hp hok)

/-- A concrete plugin module whose `before` phase fails with the raw
ordinal 1 and message `boom`, used to witness the phase-machine theorems. -/
def failingBeforeModule : RunnerModule where
  name := "wmod"
  phases := fun phase =>
    if phase = "before" then some (fun _ => .ret (.int 1) "boom" none)
    else if phase = "collect" then
      some (fun _ => .ret (.int 0) "" (some [("profile", Val.profile [("origin", "x")])]))
    else none

theorem run_all_phases_for_order_and_stop_witness :
    ("collector" = "collector" ∨ "collector" = "postprocessor") ∧
    ((run_all_phases_for failingBeforeModule "collector" []).2.Sublist
      ["before", runner_verb_of "collector", "after"] ∧
    (∀ (phase : String) (rest : List String) (q : Params)
       (f : Params → PhaseResult),
       failingBeforeModule.phases phase = some f →
       is_status_ok (call_phase (error_status_of "collector") f q).1
         (ok_status_of "collector") = false →
       run_phase_list failingBeforeModule (runner_verb_of "collector")
         (ok_status_of "collector") (error_status_of "collector")
         (phase :: rest) q =
         (.fail ("error while " ++ phase ++
            phase_suffix phase (runner_verb_of "collector") ++ " phase: " ++
            (call_phase (error_status_of "collector") f q).2.1), [phase])) ∧
    (∀ (msg : String) (tr : List String),
       run_phase_list failingBeforeModule (runner_verb_of "collector")
         (ok_status_of "collector") (error_status_of "collector")
         ["before", runner_verb_of "collector", "after"] [] =
           (.fail msg, tr) →
       run_all_phases_for failingBeforeModule "collector" [] =
         ((error_status_of "collector", msg, Val.profile []), tr)) ∧
    (∀ f : Params → PhaseResult,
       failingBeforeModule.phases "before" = some f →
       is_status_ok (call_phase (error_status_of "collector") f []).1
         (ok_status_of "collector") = false →
       run_all_phases_for failingBeforeModule "collector" [] =
         ((error_status_of "collector",
           "error while " ++ "before" ++
             phase_suffix "before" (runner_verb_of "collector") ++ " phase: " ++
             (call_phase (error_status_of "collector") f []).2.1,
           Val.profile []), ["before"]))) :=
  ⟨Or.inl rfl,
   run_all_phases_for_order_and_stop failingBeforeModule "collector" [] (Or.inl rfl)⟩

/-- C2: a phase function that raises is treated exactly as if it had
returned `(error_status, str(exc), {})`: from any point on, a present phase
that raises makes the loop stop with the formatted error message carrying
the exception's text and no later phase invoked; replacing the raising
phase by one literally returning that error triple leaves the loop's result
unchanged; and a raise in `before` makes the machine itself return the
ERROR triple whose message carries the exception's text — the embedding is
total, so no exception ever propagates out of the machine. -/
theorem phase_exception_isolated (runner : RunnerModule)
    (runner_type : String) (params : Params)
    (h : runner_type = "collector" ∨ runner_type = "postprocessor") :
    (∀ (phase : String) (rest : List String) (q : Params)
       (f : Params → PhaseResult) (m : String),
       runner.phases phase = some f → f q = .exc m →
       run_phase_list runner (runner_verb_of runner_type)
         (ok_status_of runner_type) (error_status_of runner_type)
         (phase :: rest) q =
         (.fail ("error while " ++ phase ++
            phase_suffix phase (runner_verb_of runner_type) ++ " phase: " ++ m),
          [phase])) ∧
    (∀ (phase : String) (rest : List String) (q : Params)
       (f g : Params → PhaseResult) (m : String),
       runner.phases phase = some f → f q = .exc m →
       g q = .ret (error_status_of runner_type).toRet m (some []) →
       run_phase_list
         { runner with
           phases := fun s => if s = phase then some g else runner.phases s }
         (runner_verb_of runner_type)
         (ok_status_of runner_type) (error_status_of runner_type)
         (phase :: rest) q =
       run_phase_list runner (runner_verb_of runner_type)
         (ok_status_of runner_type) (error_status_of runner_type)
         (phase :: rest) q) ∧
    (∀ (f : Params → PhaseResult) (m : String),
       runner.phases "before" = some f → f params = .exc m →
       run_all_phases_for runner runner_type params =
         ((error_status_of runner_type,
           "error while " ++ "before" ++
             phase_suffix "before" (runner_verb_of runner_type) ++
             " phase: " ++ m,
           Val.profile []), ["before"])) := by
  have herr := is_status_ok_error_status runner_type h
  refine ⟨?_, ?_, ?_⟩
  · intro phase rest q f m hp hf
    have hc := call_phase_exc (error_status_of runner_type) f q m hf
    have := run_phase_list_present_fail runner (runner_verb_of runner_type)
      (ok_status_of runner_type) (error_status_of runner_type) phase rest q f hp
      (by rw [hc]; exact herr)
    rw [this, hc]
  · intro phase rest q f g m hp hf hg
    have hc := call_phase_exc (error_status_of runner_type) f q m hf
    have hcg := call_phase_ret (error_status_of runner_type) g q
      (error_status_of runner_type).toRet m (some []) hg
    have hp' : ({ runner with
        phases := fun s => if s = phase then some g else runner.phases s } :
        RunnerModule).phases phase = some g := by simp
    rw [run_phase_list_present_fail _ _ _ _ _ _ _ _ hp' (by rw [hcg]; exact herr),
      run_phase_list_present_fail _ _ _ _ _ _ _ _ hp (by rw [hc]; exact herr),
      hc, hcg]
  · intro f m hp hf
    have hc := call_phase_exc (error_status_of runner_type) f params m hf
    have hloop := run_phase_list_present_fail runner (runner_verb_of runner_type)
      (ok_status_of runner_type) (error_status_of runner_type) "before"
      [runner_verb_of runner_type, "after"] params f hp (by rw [hc]; exact herr)
    rw [hc] at hloop
    exact run_all_phases_for_fail _ _ _ _ _ hloop

/-- A concrete plugin module whose `before` phase raises an exception with
text `kaboom`, used to witness the exception-isolation theorem. -/
def raisingBeforeModule : RunnerModule where
  name := "wexc"
  phases := fun phase =>
    if phase = "before" then some (fun _ => .exc "kaboom")
    else if phase = "collect" then
      some (fun _ => .ret (.int 0) "" (some [("profile", Val.profile [("origin", "x")])]))
    else none

theorem phase_exception_isolated_witness :
    ("collector" = "collector" ∨ "collector" = "postprocessor") ∧
    ((∀ (phase : String) (rest : List String) (q : Params)
       (f : Params → PhaseResult) (m : String),
       raisingBeforeModule.phases phase = some f → f q = .exc m →
       run_phase_list raisingBeforeModule (runner_verb_of "collector")
         (ok_status_of "collector") (error_status_of "collector")
         (phase :: rest) q =
         (.fail ("error while " ++ phase ++
            phase_suffix phase (runner_verb_of "collector") ++ " phase: " ++ m),
          [phase])) ∧
    (∀ (phase : String) (rest : List String) (q : Params)
       (f g : Params → PhaseResult) (m : String),
       raisingBeforeModule.phases phase = some f → f q = .exc m →
       g q = .ret (error_status_of "collector").toRet m (some []) →
       run_phase_list
         { raisingBeforeModule with
           phases := fun s =>
             if s = phase then some g else raisingBeforeModule.phases s }
         (runner_verb_of "collector")
         (ok_status_of "collector") (error_status_of "collector")
         (phase :: rest) q =
       run_phase_list raisingBeforeModule (runner_verb_of "collector")
         (ok_status_of "collector") (error_status_of "collector")
         (phase :: rest) q) ∧
    (∀ (f : Params → PhaseResult) (m : String),
       raisingBeforeModule.phases "before" = some f → f [] = .exc m →
       run_all_phases_for raisingBeforeModule "collector" [] =
         ((error_status_of "collector",
           "error while " ++ "before" ++
             phase_suffix "before" (runner_verb_of "collector") ++
             " phase: " ++ m,
           Val.profile []), ["before"]))) :=
  ⟨Or.inl rfl,
   phase_exception_isolated raisingBeforeModule "collector" [] (Or.inl rfl)⟩

/-- A concrete plugin module lacking the primary `collect` phase whose
`before` phase fails: the counterexample input for the missing-primary
claim. -/
def c7Module : RunnerModule where
  name := "c7mod"
  phases := fun phase =>
    if phase = "before" then some (fun _ => .ret (.int 1) "boom" none)
    else none

/-- C7 counterexample: `c7Module` lacks the primary `collect` phase, yet
the machine's message is the `before`-failure message, not one naming the
missing `collect()` function — the claim's unconditional message clause
fails when an earlier phase fails first. -/
theorem missing_primary_message_ce :
    c7Module.phases "collect" = none ∧
    (run_all_phases_for c7Module "collector" []).1 =
      (Status.collect .ERROR, "error while before_collect phase: boom",
        Val.profile []) ∧
    (run_all_phases_for c7Module "collector" []).1.2.1 ≠
      "missing collect() function for c7mod" := by
  refine ⟨rfl, by decide, by decide⟩

/-- C7 amended: for a unit module lacking the primary-verb phase the
machine always returns an ERROR status and never invokes `after`; and
whenever `before` is absent or reports OK, the result is exactly the ERROR
triple whose message names the missing primary-verb function and the
module's name (if `before` itself fails first, the `before` failure message
is returned instead). -/
theorem missing_primary_spec (runner : RunnerModule) (runner_type : String)
    (params : Params)
    (h : runner_type = "collector" ∨ runner_type = "postprocessor")
    (hverb : runner.phases (runner_verb_of runner_type) = none) :
    (run_all_phases_for runner runner_type params).1.1 =
      error_status_of runner_type ∧
    "after" ∉ (run_all_phases_for runner runner_type params).2 ∧
    (runner.phases "before" = none →
      run_all_phases_for runner runner_type params =
        ((error_status_of runner_type,
          "missing " ++ runner_verb_of runner_type ++ "() function for " ++
            runner.name,
          Val.profile []), [])) ∧
    (∀ f : Params → PhaseResult,
      runner.phases "before" = some f →
      is_status_ok (call_phase (error_status_of runner_type) f params).1
        (ok_status_of runner_type) = true →
      run_all_phases_for runner runner_type params =
        ((error_status_of runner_type,
          "missing " ++ runner_verb_of runner_type ++ "() function for " ++
            runner.name,
          Val.profile []), ["before"])) := by
  have hbv : "before" ≠ runner_verb_of runner_type := by
    rcases h with h | h <;> subst h <;> decide
  cases hb : runner.phases "before" with
  | none =>
    have hloop : run_phase_list runner (runner_verb_of runner_type)
        (ok_status_of runner_type) (error_status_of runner_type)
        ["before", runner_verb_of runner_type, "after"] params =
        (.fail ("missing " ++ runner_verb_of runner_type ++
          "() function for " ++ runner.name), []) := by
      rw [run_phase_list_absent_skip _ _ _ _ _ _ _ hb hbv,
        run_phase_list_absent_verb _ _ _ _ _ _ hverb]
    have hm := run_all_phases_for_fail _ _ _ _ _ hloop
    refine ⟨by rw [hm], by rw [run_all_phases_for_trace, hloop]; simp,
      fun _ => hm, fun f hf => ?_⟩
    simp [hb] at hf
  | some f =>
    by_cases hok : is_status_ok
        (call_phase (error_status_of runner_type) f params).1
        (ok_status_of runner_type) = true
    · have hloop : run_phase_list runner (runner_verb_of runner_type)
          (ok_status_of runner_type) (error_status_of runner_type)
          ["before", runner_verb_of runner_type, "after"] params =
          (.fail ("missing " ++ runner_verb_of runner_type ++
            "() function for " ++ runner.name), ["before"]) := by
        rw [run_phase_list_present_ok _ _ _ _ _ _ _ _ hb hok,
          run_phase_list_absent_verb _ _ _ _ _ _ hverb]
      have hm := run_all_phases_for_fail _ _ _ _ _ hloop
      refine ⟨by rw [hm], by rw [run_all_phases_for_trace, hloop]; simp,
        fun hn => by simp [hb] at hn, fun f' hf' _ => hm⟩
    · have hok' : is_status_ok
          (call_phase (error_status_of runner_type) f params).1
          (ok_status_of runner_type) = false := by
        cases hv : is_status_ok
            (call_phase (error_status_of runner_type) f params).1
            (ok_status_of runner_type)
        · rfl
        · exact absurd hv hok
      have hloop := run_phase_list_present_fail runner
        (runner_verb_of runner_type) (ok_status_of runner_type)
        (error_status_of runner_type) "before"
        [runner_verb_of runner_type, "after"] params f hb hok'
      have hm := run_all_phases_for_fail _ _ _ _ _ hloop
      refine ⟨by rw [hm], by rw [run_all_phases_for_trace, hloop]; simp,
        fun hn => by simp [hb] at hn, fun f' hf' hok2 => ?_⟩
      have hff : f = f' := Option.some.inj hf'
      rw [← hff] at hok2
      rw [hok2] at hok'
      cases hok'

/-- A concrete plugin module lacking the primary `collect` phase whose
`before` phase reports OK, used to witness the amended missing-primary
theorem. -/
def missingPrimaryModule : RunnerModule where
  name := "wmissing"
  phases := fun phase =>
    if phase = "before" then some (fun _ => .ret (.int 0) "" none)
    else none

theorem missing_primary_spec_witness :
    ("collector" = "collector" ∨ "collector" = "postprocessor") ∧
    missingPrimaryModule.phases (runner_verb_of "collector") = none ∧
    ((run_all_phases_for missingPrimaryModule "collector" []).1.1 =
      error_status_of "collector" ∧
    "after" ∉ (run_all_phases_for missingPrimaryModule "collector" []).2 ∧
    (missingPrimaryModule.phases "before" = none →
      run_all_phases_for missingPrimaryModule "collector" [] =
        ((error_status_of "collector",
          "missing " ++ runner_verb_of "collector" ++ "() function for " ++
            missingPrimaryModule.name,
          Val.profile []), [])) ∧
    (∀ f : Params → PhaseResult,
      missingPrimaryModule.phases "before" = some f →
      is_status_ok (call_phase (error_status_of "collector") f []).1
        (ok_status_of "collector") = true →
      run_all_phases_for missingPrimaryModule "collector" [] =
        ((error_status_of "collector",
          "missing " ++ runner_verb_of "collector" ++ "() function for " ++
            missingPrimaryModule.name,
          Val.profile []), ["before"]))) :=
  ⟨Or.inl rfl, rfl,
   missing_primary_spec missingPrimaryModule "collector" [] (Or.inl rfl) rfl⟩

/-- C8: when the phase loop completes (every present phase, including the
mandatory primary phase, reported an OK status), the machine returns the
ERROR triple naming the lifecycle kind and the unit if the final parameter
bag has no `profile` key, returns `(OK, "", params['profile'])` otherwise,
and can only report the OK status when the bag holds a `profile` value,
which is then the returned profile. -/
theorem final_profile_required (runner : RunnerModule) (runner_type : String)
    (params finalParams : Params) (tr : List String)
    (h : runner_type = "collector" ∨ runner_type = "postprocessor")
    (hrun : run_phase_list runner (runner_verb_of runner_type)
      (ok_status_of runner_type) (error_status_of runner_type)
      ["before", runner_verb_of runner_type, "after"] params =
        (.ok finalParams, tr)) :
    (dictGet finalParams "profile" = none →
      run_all_phases_for runner runner_type params =
        ((error_status_of runner_type,
          "missing generated profile for " ++ runner_type ++ " " ++ runner.name,
          Val.profile []), tr)) ∧
    (∀ p : Val, dictGet finalParams "profile" = some p →
      run_all_phases_for runner runner_type params =
        ((ok_status_of runner_type, "", p), tr)) ∧
    ((run_all_phases_for runner runner_type params).1.1 =
        ok_status_of runner_type →
      ∃ p : Val, dictGet finalParams "profile" = some p ∧
        (run_all_phases_for runner runner_type params).1.2.2 = p) := by
  have hne : error_status_of runner_type ≠ ok_status_of runner_type := by
    rcases h with h | h <;> subst h <;> decide
  have hm := run_all_phases_for_ok runner runner_type params finalParams tr hrun
  have h1 : dictGet finalParams "profile" = none →
      run_all_phases_for runner runner_type params =
        ((error_status_of runner_type,
          "missing generated profile for " ++ runner_type ++ " " ++ runner.name,
          Val.profile []), tr) := by
    intro hnone
    rw [hm, hnone]
  have h2 : ∀ p : Val, dictGet finalParams "profile" = some p →
      run_all_phases_for runner runner_type params =
        ((ok_status_of runner_type, "", p), tr) := by
    intro p hp
    rw [hm, hp]
  refine ⟨h1, h2, fun hok => ?_⟩
  cases hget : dictGet finalParams "profile" with
  | none =>
    rw [h1 hget] at hok
    exact absurd hok hne
  | some p =>
    exact ⟨p, rfl, by rw [h2 p hget]⟩

/-- A concrete plugin module whose only phase is a `collect` phase that
reports OK and writes the `profile` key, used to witness the
final-profile theorem. -/
def okCollectModule : RunnerModule where
  name := "wok"
  phases := fun phase =>
    if phase = "collect" then
      some (fun _ => .ret (.collect .OK) ""
        (some [("profile", Val.profile [("origin", "x")])]))
    else none

theorem final_profile_required_witness :
    ("collector" = "collector" ∨ "collector" = "postprocessor") ∧
    run_phase_list okCollectModule (runner_verb_of "collector")
      (ok_status_of "collector") (error_status_of "collector")
      ["before", runner_verb_of "collector", "after"] [] =
        (.ok [("profile", Val.profile [("origin", "x")])], ["collect"]) ∧
    ((dictGet [("profile", Val.profile [("origin", "x")])] "profile" = none →
      run_all_phases_for okCollectModule "collector" [] =
        ((error_status_of "collector",
          "missing generated profile for " ++ "collector" ++ " " ++
            okCollectModule.name,
          Val.profile []), ["collect"])) ∧
    (∀ p : Val,
      dictGet [("profile", Val.profile [("origin", "x")])] "profile" = some p →
      run_all_phases_for okCollectModule "collector" [] =
        ((ok_status_of "collector", "", p), ["collect"])) ∧
    ((run_all_phases_for okCollectModule "collector" []).1.1 =
        ok_status_of "collector" →
      ∃ p : Val,
        dictGet [("profile", Val.profile [("origin", "x")])] "profile" = some p ∧
        (run_all_phases_for okCollectModule "collector" []).1.2.2 = p)) :=
  ⟨Or.inl rfl, by decide,
   final_profile_required okCollectModule "collector" []
     [("profile", Val.profile [("origin", "x")])] ["collect"]
     (Or.inl rfl) (by decide)⟩

/-! ### Claim theorems for the per-revision job loop -/

/-- Discriminator: is this event a postprocessor invocation? -/
def Event.isPostprocess : Event → Bool
  | .postprocess .. => true
  | _ => false

/-- Discriminator: is this event a profile storage? -/
def Event.isStore : Event → Bool
  | .store .. => true
  | _ => false

/-- The postprocessor unit invoked by an event, when it is one. -/
def Event.unitOf : Event → Option Unit
  | .postprocess u _ _ _ _ => some u
  | _ => none

/-- C5: a job whose collector run yields a non-OK status or an empty
profile contributes only its collector event: none of its postprocessors
is invoked and nothing is stored for it, and the matrix loop is the plain
concatenation of the per-job runs, so the loop simply moves on to the next
job. -/
theorem collector_failure_skips (env : Env) (job : Job) (s : Status)
    (p : Profile) (hc : env.runCollector job = (s, p))
    (hfail : s ≠ Status.collect CollectStatus.OK ∨ p = []) :
    run_job_for env job = [Event.collect job s p] ∧
    (∀ e ∈ run_job_for env job,
      e.isPostprocess = false ∧ e.isStore = false) ∧
    (∀ (job_matrix : List (String × List (String × List Job)))
       (number_of_jobs : Nat),
      run_jobs_on_current_working_dir env job_matrix number_of_jobs =
        job_matrix.flatMap (fun bv =>
          bv.2.flatMap (fun wv => wv.2.flatMap (run_job_for env)))) := by
  have h1 : run_job_for env job = [Event.collect job s p] := by
    simp only [run_job_for, hc]
    rw [if_pos hfail]
  refine ⟨h1, ?_, fun _ _ => rfl⟩
  intro e he
  rw [h1] at he
  simp only [List.mem_singleton] at he
  subst he
  exact ⟨rfl, rfl⟩

/-- A concrete oracle environment for witnessing the job-loop theorems:
the collector of job `wFailJob` fails, the collector of `wOkJob` succeeds,
and the postprocessor named `bad` fails with an empty profile while every
other postprocessor succeeds. -/
def wEnv : Env where
  runCollector := fun job =>
    if job.collector.name = "broken" then (Status.collect .ERROR, [])
    else (Status.collect .OK, [("origin", "x")])
  finalize := fun p _ => ("finalized", "yes") :: p
  runPostprocessor := fun u _ q =>
    if u.name = "bad" then (Status.postprocess .ERROR, [])
    else (Status.postprocess .OK, ("post", u.name) :: q)
  extractJob := fun _ => ⟨⟨"c", []⟩, [⟨"old", []⟩], "cmd", "w", ""⟩

/-- A job whose collector fails under `wEnv`. -/
def wFailJob : Job := ⟨⟨"broken", []⟩, [⟨"good", []⟩], "cmd", "w", ""⟩

/-- A job whose collector succeeds under `wEnv`, with a failing first
postprocessor. -/
def wOkJob : Job := ⟨⟨"time", []⟩, [⟨"bad", []⟩, ⟨"good", []⟩], "cmd", "w", ""⟩

theorem collector_failure_skips_witness :
    wEnv.runCollector wFailJob = (Status.collect .ERROR, []) ∧
    (Status.collect CollectStatus.ERROR ≠ Status.collect CollectStatus.OK ∨
      ([] : Profile) = []) ∧
    (run_job_for wEnv wFailJob =
      [Event.collect wFailJob (Status.collect .ERROR) []] ∧
    (∀ e ∈ run_job_for wEnv wFailJob,
      e.isPostprocess = false ∧ e.isStore = false) ∧
    (∀ (job_matrix : List (String × List (String × List Job)))
       (number_of_jobs : Nat),
      run_jobs_on_current_working_dir wEnv job_matrix number_of_jobs =
        job_matrix.flatMap (fun bv =>
          bv.2.flatMap (fun wv => wv.2.flatMap (run_job_for wEnv))))) :=
  ⟨rfl, Or.inl (by decide),
   collector_failure_skips wEnv wFailJob (Status.collect .ERROR) [] rfl
     (Or.inl (by decide))⟩

/-- C6: when the collector run reports the OK status with a non-empty
profile, the job's trace is the collector event, then the full
postprocessor chain, then — unconditionally — a storage event carrying the
chain's final profile; the chain invokes exactly the job's postprocessors
in declared order (regardless of their statuses, since the source's
`continue` ends the loop body anyway), threading the profile sequentially:
the final profile is the left fold of the postprocessor outputs and the
i-th invocation receives the i-th entry of the scan of those outputs. -/
theorem postprocess_chain_and_store (env : Env) (job : Job) (p : Profile)
    (hc : env.runCollector job = (Status.collect CollectStatus.OK, p))
    (hne : p ≠ []) :
    run_job_for env job =
      Event.collect job (Status.collect CollectStatus.OK) p ::
        ((run_post_chain env job job.postprocessors (env.finalize p job)).1 ++
         [Event.store
           (run_post_chain env job job.postprocessors (env.finalize p job)).2
           job]) ∧
    (∀ (posts : List Unit) (prof : Profile),
      (run_post_chain env job posts prof).1.filterMap Event.unitOf = posts) ∧
    (∀ (posts : List Unit) (prof : Profile),
      (run_post_chain env job posts prof).2 =
        posts.foldl (fun q u => (env.runPostprocessor u job q).2) prof) ∧
    (∀ (posts : List Unit) (prof : Profile),
      (run_post_chain env job posts prof).1 =
        List.zipWith
          (fun u q => Event.postprocess u job q
            (env.runPostprocessor u job q).1 (env.runPostprocessor u job q).2)
          posts
          (posts.scanl (fun q u => (env.runPostprocessor u job q).2) prof)) := by
  refine ⟨?_, ?_, ?_, ?_⟩
  · simp only [run_job_for, hc]
    rw [if_neg]
    simp only [not_or]
    exact ⟨by simp, hne⟩
  · intro posts
    induction posts with
    | nil => intro prof; simp [run_post_chain]
    | cons u rest ih =>
      intro prof
      simp only [run_post_chain, List.filterMap_cons, Event.unitOf]
      rw [ih]
  · intro posts
    induction posts with
    | nil => intro prof; simp [run_post_chain]
    | cons u rest ih =>
      intro prof
      simp only [run_post_chain, List.foldl_cons]
      exact ih _
  · intro posts
    induction posts with
    | nil => intro prof; simp [run_post_chain]
    | cons u rest ih =>
      intro prof
      rw [List.scanl_cons]
      simp only [run_post_chain, List.singleton_append, List.zipWith_cons_cons]
      rw [ih]

theorem postprocess_chain_and_store_witness :
    wEnv.runCollector wOkJob = (Status.collect CollectStatus.OK, [("origin", "x")]) ∧
    ([("origin", "x")] : Profile) ≠ [] ∧
    (run_job_for wEnv wOkJob =
      Event.collect wOkJob (Status.collect CollectStatus.OK) [("origin", "x")] ::
        ((run_post_chain wEnv wOkJob wOkJob.postprocessors
            (wEnv.finalize [("origin", "x")] wOkJob)).1 ++
         [Event.store
           (run_post_chain wEnv wOkJob wOkJob.postprocessors
             (wEnv.finalize [("origin", "x")] wOkJob)).2
           wOkJob]) ∧
    (∀ (posts : List Unit) (prof : Profile),
      (run_post_chain wEnv wOkJob posts prof).1.filterMap Event.unitOf = posts) ∧
    (∀ (posts : List Unit) (prof : Profile),
      (run_post_chain wEnv wOkJob posts prof).2 =
        posts.foldl (fun q u => (wEnv.runPostprocessor u wOkJob q).2) prof) ∧
    (∀ (posts : List Unit) (prof : Profile),
      (run_post_chain wEnv wOkJob posts prof).1 =
        List.zipWith
          (fun u q => Event.postprocess u wOkJob q
            (wEnv.runPostprocessor u wOkJob q).1
            (wEnv.runPostprocessor u wOkJob q).2)
          posts
          (posts.scanl (fun q u => (wEnv.runPostprocessor u wOkJob q).2) prof))) :=
  ⟨rfl, by decide,
   postprocess_chain_and_store wEnv wOkJob [("origin", "x")] rfl (by decide)⟩

/-- C10: `run_postprocessor_on_profile` returns the postprocessor's status
and stores a profile exactly when that status is `PostprocessStatus.OK`
and the *input* profile is non-empty; in that case the stored profile is
the processed one (whose own emptiness is never checked), and an empty
input profile suppresses storage regardless of the status. -/
theorem store_on_input_profile (env : Env) (prof : Profile)
    (postprocessor_name : String) (postprocessor_params : UnitParams)
    (st : Status) (processed : Profile)
    (hr : env.runPostprocessor ⟨postprocessor_name, postprocessor_params⟩
      (appended_job env prof postprocessor_name postprocessor_params) prof =
        (st, processed)) :
    (run_postprocessor_on_profile env prof postprocessor_name
      postprocessor_params).1 = st ∧
    ((∃ e ∈ (run_postprocessor_on_profile env prof postprocessor_name
        postprocessor_params).2, e.isStore = true) ↔
      (st = Status.postprocess PostprocessStatus.OK ∧ prof ≠ [])) ∧
    (st = Status.postprocess PostprocessStatus.OK → prof ≠ [] →
      (run_postprocessor_on_profile env prof postprocessor_name
        postprocessor_params).2 =
        [Event.postprocess ⟨postprocessor_name, postprocessor_params⟩
          (appended_job env prof postprocessor_name postprocessor_params)
          prof st processed,
         Event.store processed
          (appended_job env prof postprocessor_name postprocessor_params)]) ∧
    (prof = [] →
      ∀ e ∈ (run_postprocessor_on_profile env prof postprocessor_name
        postprocessor_params).2, e.isStore = false) := by
  have hout : run_postprocessor_on_profile env prof postprocessor_name
      postprocessor_params =
      (st, Event.postprocess ⟨postprocessor_name, postprocessor_params⟩
          (appended_job env prof postprocessor_name postprocessor_params)
          prof st processed ::
        (if st = Status.postprocess PostprocessStatus.OK ∧ prof ≠ [] then
          [Event.store processed
            (appended_job env prof postprocessor_name postprocessor_params)]
        else [])) := by
    simp only [run_postprocessor_on_profile, hr]
  refine ⟨by rw [hout], ?_, ?_, ?_⟩
  · constructor
    · rintro ⟨e, he, hst⟩
      rw [hout] at he
      by_cases hcond : st = Status.postprocess PostprocessStatus.OK ∧ prof ≠ []
      · exact hcond
      · rw [if_neg hcond] at he
        simp only [List.mem_singleton] at he
        subst he
        cases hst
    · intro hcond
      refine ⟨Event.store processed
        (appended_job env prof postprocessor_name postprocessor_params),
        ?_, rfl⟩
      rw [hout]
      simp [if_pos hcond]
  · intro hst hp
    rw [hout, if_pos ⟨hst, hp⟩]
  · intro hp e he
    rw [hout] at he
    have hcond : ¬ (st = Status.postprocess PostprocessStatus.OK ∧ prof ≠ []) := by
      rintro ⟨_, hne⟩
      exact hne hp
    rw [if_neg hcond] at he
    simp only [List.mem_singleton] at he
    subst he
    rfl

theorem store_on_input_profile_witness :
    wEnv.runPostprocessor ⟨"good", []⟩
      (appended_job wEnv [("origin", "x")] "good" []) [("origin", "x")] =
      (Status.postprocess .OK, [("post", "good"), ("origin", "x")]) ∧
    ((run_postprocessor_on_profile wEnv [("origin", "x")] "good" []).1 =
      Status.postprocess .OK ∧
    ((∃ e ∈ (run_postprocessor_on_profile wEnv [("origin", "x")] "good" []).2,
        e.isStore = true) ↔
      (Status.postprocess .OK = Status.postprocess PostprocessStatus.OK ∧
        ([("origin", "x")] : Profile) ≠ [])) ∧
    (Status.postprocess .OK = Status.postprocess PostprocessStatus.OK →
      ([("origin", "x")] : Profile) ≠ [] →
      (run_postprocessor_on_profile wEnv [("origin", "x")] "good" []).2 =
        [Event.postprocess ⟨"good", []⟩
          (appended_job wEnv [("origin", "x")] "good" [])
          [("origin", "x")] (Status.postprocess .OK)
          [("post", "good"), ("origin", "x")],
         Event.store [("post", "good"), ("origin", "x")]
          (appended_job wEnv [("origin", "x")] "good" [])]) ∧
    (([("origin", "x")] : Profile) = [] →
      ∀ e ∈ (run_postprocessor_on_profile wEnv [("origin", "x")] "good" []).2,
        e.isStore = false)) :=
  ⟨rfl,
   store_on_input_profile wEnv [("origin", "x")] "good" []
     (Status.postprocess .OK) [("post", "good"), ("origin", "x")] rfl⟩

/-! ### Claim theorem for the revision replayer -/

/-- Projection: the checksum of a checkout event. -/
def REvent.checkoutOf : REvent → Option String
  | .checkout c => some c
  | _ => none

/-- Discriminator: is this a per-revision step (checkout, pre-phase or
matrix run) rather than the clean-state guard? -/
def REvent.isStep : REvent → Bool
  | .checkout _ => true
  | .prephase _ _ => true
  | .jobs _ => true
  | _ => false

/-- C9: `run_jobs` acquires the clean-workspace guard exactly once, as the
very first event, and releases it exactly once, as the very last event —
not once per revision; the checkout events are exactly the supplied
checksums in list order; and the per-revision steps are, for each revision
in order, its checkout followed by the `pre_run` pre-phase followed by the
full job matrix run (whether or not the pre-phase commands fail). -/
theorem run_jobs_guard_and_order (env : RunEnv)
    (minor_version_list : List MinorVersion)
    (job_matrix : List (String × List (String × List Job)))
    (number_of_jobs : Nat) :
    (run_jobs env minor_version_list job_matrix number_of_jobs).count
      REvent.acquire = 1 ∧
    (run_jobs env minor_version_list job_matrix number_of_jobs).count
      REvent.release = 1 ∧
    (run_jobs env minor_version_list job_matrix number_of_jobs).head? =
      some REvent.acquire ∧
    (run_jobs env minor_version_list job_matrix number_of_jobs).getLast? =
      some REvent.release ∧
    (run_jobs env minor_version_list job_matrix number_of_jobs).filterMap
      REvent.checkoutOf =
      minor_version_list.map (fun minor_version => minor_version.checksum) ∧
    (run_jobs env minor_version_list job_matrix number_of_jobs).filter
      REvent.isStep =
      minor_version_list.flatMap (fun minor_version =>
        [REvent.checkout minor_version.checksum,
         REvent.prephase "pre_run" (env.prephaseFails "pre_run"),
         REvent.jobs (run_jobs_on_current_working_dir env.toEnv job_matrix
           number_of_jobs)]) := by
  have htr : run_jobs env minor_version_list job_matrix number_of_jobs =
      REvent.acquire ::
        ((minor_version_list.flatMap (fun minor_version =>
          [REvent.checkout minor_version.checksum,
           REvent.prephase "pre_run" (env.prephaseFails "pre_run"),
           REvent.jobs (run_jobs_on_current_working_dir env.toEnv job_matrix
             number_of_jobs)])) ++ [REvent.release]) := rfl
  have hmemA : REvent.acquire ∉
      minor_version_list.flatMap (fun minor_version =>
        [REvent.checkout minor_version.checksum,
         REvent.prephase "pre_run" (env.prephaseFails "pre_run"),
         REvent.jobs (run_jobs_on_current_working_dir env.toEnv job_matrix
           number_of_jobs)]) := by
    intro hmem
    rw [List.mem_flatMap] at hmem
    obtain ⟨mv, _, hm⟩ := hmem
    simp at hm
  have hmemR : REvent.release ∉
      minor_version_list.flatMap (fun minor_version =>
        [REvent.checkout minor_version.checksum,
         REvent.prephase "pre_run" (env.prephaseFails "pre_run"),
         REvent.jobs (run_jobs_on_current_working_dir env.toEnv job_matrix
           number_of_jobs)]) := by
    intro hmem
    rw [List.mem_flatMap] at hmem
    obtain ⟨mv, _, hm⟩ := hmem
    simp at hm
  refine ⟨?_, ?_, ?_, ?_, ?_, ?_⟩
  · rw [htr, List.count_cons, List.count_append,
      List.count_eq_zero.mpr hmemA]
    simp
  · rw [htr, List.count_cons, List.count_append,
      List.count_eq_zero.mpr hmemR]
    simp
  · rw [htr]
    rfl
  · rw [htr]
    have hshape : REvent.acquire ::
        ((minor_version_list.flatMap (fun minor_version =>
          [REvent.checkout minor_version.checksum,
           REvent.prephase "pre_run" (env.prephaseFails "pre_run"),
           REvent.jobs (run_jobs_on_current_working_dir env.toEnv job_matrix
             number_of_jobs)])) ++ [REvent.release]) =
        (REvent.acquire ::
          minor_version_list.flatMap (fun minor_version =>
            [REvent.checkout minor_version.checksum,
             REvent.prephase "pre_run" (env.prephaseFails "pre_run"),
             REvent.jobs (run_jobs_on_current_working_dir env.toEnv job_matrix
               number_of_jobs)])) ++ [REvent.release] := by
      simp
    rw [hshape, List.getLast?_concat]
  · rw [htr]
    have hmid : ∀ mvs : List MinorVersion,
        (mvs.flatMap (fun minor_version =>
          [REvent.checkout minor_version.checksum,
           REvent.prephase "pre_run" (env.prephaseFails "pre_run"),
           REvent.jobs (run_jobs_on_current_working_dir env.toEnv job_matrix
             number_of_jobs)])).filterMap REvent.checkoutOf =
          mvs.map (fun minor_version => minor_version.checksum) := by
      intro mvs
      induction mvs with
      | nil => rfl
      | cons mv rest ih =>
        rw [List.flatMap_cons, List.filterMap_append, ih]
        rfl
    simp only [List.filterMap_cons, List.filterMap_append, REvent.checkoutOf,
      hmid]
    simp [List.filterMap_cons, REvent.checkoutOf]
  · rw [htr]
    have hmid : ∀ mvs : List MinorVersion,
        (mvs.flatMap (fun minor_version =>
          [REvent.checkout minor_version.checksum,
           REvent.prephase "pre_run" (env.prephaseFails "pre_run"),
           REvent.jobs (run_jobs_on_current_working_dir env.toEnv job_matrix
             number_of_jobs)])).filter REvent.isStep =
          mvs.flatMap (fun minor_version =>
            [REvent.checkout minor_version.checksum,
             REvent.prephase "pre_run" (env.prephaseFails "pre_run"),
             REvent.jobs (run_jobs_on_current_working_dir env.toEnv job_matrix
               number_of_jobs)]) := by
      intro mvs
      induction mvs with
      | nil => rfl
      | cons mv rest ih =>
        rw [List.flatMap_cons, List.filter_append, ih]
        rfl
    simp only [List.filter_cons, List.filter_append, REvent.isStep, hmid]
    simp [List.filter_cons, REvent.isStep]

/-! ### Lemmas about the dict embedding and counting, for the matrix builder -/

theorem setKey_of_not_contains {α : Type} (d : List (String × α)) (k : String)
    (v : α) (h : d.any (fun p => p.1 == k) = false) :
    setKey d k v = d ++ [(k, v)] := by
  simp only [setKey, h, Bool.false_eq_true, if_false]

theorem foldl_setKey_of_nodup {α : Type} :
    ∀ (d acc : List (String × α)),
    (d.map Prod.fst).Nodup →
    (∀ k ∈ d.map Prod.fst, k ∉ acc.map Prod.fst) →
    d.foldl (fun a kv => setKey a kv.1 kv.2) acc = acc ++ d
  | [], acc, _, _ => by simp
  | kv :: rest, acc, hnd, hdisj => by
    have hk : kv.1 ∉ acc.map Prod.fst := hdisj kv.1 (by simp)
    have hany : acc.any (fun p => p.1 == kv.1) = false := by
      rw [List.any_eq_false]
      intro p hp
      simp only [beq_iff_eq]
      intro hpe
      exact hk (hpe ▸ List.mem_map_of_mem Prod.fst hp)
    rw [List.foldl_cons, setKey_of_not_contains acc kv.1 kv.2 hany]
    have hnd' : (rest.map Prod.fst).Nodup := by
      rw [List.map_cons, List.nodup_cons] at hnd
      exact hnd.2
    have hhead : kv.1 ∉ rest.map Prod.fst := by
      rw [List.map_cons, List.nodup_cons] at hnd
      exact hnd.1
    have hdisj' : ∀ k ∈ rest.map Prod.fst,
        k ∉ (acc ++ [(kv.1, kv.2)]).map Prod.fst := by
      intro k hkr
      rw [List.map_append, List.mem_append]
      rintro (hin | hin)
      · exact hdisj k (by simp [hkr]) hin
      · simp only [List.map_cons, List.map_nil, List.mem_singleton] at hin
        exact hhead (hin ▸ hkr)
    rw [foldl_setKey_of_nodup rest (acc ++ [(kv.1, kv.2)]) hnd' hdisj']
    simp

theorem pyDict_of_nodup {α : Type} (d : List (String × α))
    (h : (d.map Prod.fst).Nodup) : pyDict d = d := by
  have := foldl_setKey_of_nodup d [] h (by simp)
  simpa [pyDict] using this

theorem dictGet_map_self {α : Type} (f : String → α) :
    ∀ (l : List String) (b : String), b ∈ l →
    dictGet (l.map (fun x => (x, f x))) b = some (f b)
  | [], b, hb => by simp at hb
  | x :: rest, b, hb => by
    by_cases hxb : x = b
    · subst hxb
      simp [dictGet, List.find?_cons_of_pos]
    · have hbr : b ∈ rest := by
        rcases List.mem_cons.mp hb with h | h
        · exact absurd h.symm hxb
        · exact h
      have hrec := dictGet_map_self f rest b hbr
      simp only [dictGet] at hrec ⊢
      rw [List.map_cons, List.find?_cons_of_neg]
      · exact hrec
      · simp [hxb]

theorem pyDict_map_get {α : Type} (f : String → α) (l : List String)
    (hl : l.Nodup) (b : String) (hb : b ∈ l) :
    dictGet (pyDict (l.map (fun x => (x, f x)))) b = some (f b) := by
  rw [pyDict_of_nodup]
  · exact dictGet_map_self f l b hb
  · have hmap : (l.map (fun x => (x, f x))).map Prod.fst = l := by
      rw [List.map_map]
      exact List.map_id l
    rw [hmap]
    exact hl

theorem foldl_add_jobs :
    ∀ (jobs : List Job) (acc : Nat),
    jobs.foldl (fun a j => a + (1 + j.postprocessors.length)) acc =
      acc + (jobs.map (fun j => 1 + j.postprocessors.length)).sum
  | [], acc => by simp
  | j :: rest, acc => by
    rw [List.foldl_cons, foldl_add_jobs rest (acc + (1 + j.postprocessors.length)),
      List.map_cons, List.sum_cons]
    omega

theorem sum_ite_count {α : Type} [DecidableEq α] (x : α) :
    ∀ l : List α, (l.map (fun y => if y = x then 1 else 0)).sum = l.count x
  | [] => by simp
  | y :: rest => by
    rw [List.map_cons, List.sum_cons, sum_ite_count x rest, List.count_cons]
    by_cases hyx : y = x
    · subst hyx
      simp [Nat.add_comm]
    · simp [hyx]

/-- C3: for duplicate-free configured lists, the matrix entry of every
`(cmd, workload)` pair holds exactly one Job for each pair in the cross
product of the collector units with the argument variants (the single
empty-string variant standing in when `args` is empty), every Job in it
carries the full configured postprocessor list, and the returned step
count is the sum over all generated jobs of `1 + len(job.postprocessors)`. -/
theorem construct_job_matrix_spec
    (cmd args workload collector postprocessor : List String) (kwargs : Kwargs)
    (hcmd : cmd.Nodup) (hwl : workload.Nodup) (hcol : collector.Nodup)
    (hargs : args.Nodup) :
    (∀ b ∈ cmd, ∀ w ∈ workload,
      ∃ jobs : List Job,
        (dictGet (construct_job_matrix cmd args workload collector
            postprocessor kwargs).1 b).bind
          (fun inner => dictGet inner w) = some jobs ∧
        (∀ c ∈ collector, ∀ a ∈ (if args = [] then [""] else args),
          jobs.count (Job.mk (construct_unit c "collector" kwargs)
            (postprocessor.map (fun p => construct_unit p "postprocessor" kwargs))
            b w a) = 1) ∧
        (∀ j ∈ jobs,
          j.postprocessors =
            postprocessor.map (fun p => construct_unit p "postprocessor" kwargs) ∧
          ∃ c ∈ collector, ∃ a ∈ (if args = [] then [""] else args),
            j = Job.mk (construct_unit c "collector" kwargs)
              (postprocessor.map (fun p => construct_unit p "postprocessor" kwargs))
              b w a)) ∧
    (construct_job_matrix cmd args workload collector postprocessor kwargs).2 =
      ((construct_job_matrix cmd args workload collector postprocessor kwargs).1.map
        (fun bv => (bv.2.map (fun wv =>
          (wv.2.map (fun j => 1 + j.postprocessors.length)).sum)).sum)).sum := by
  have hm1 : (construct_job_matrix cmd args workload collector
      postprocessor kwargs).1 =
      pyDict (cmd.map (fun b =>
        (b, pyDict (workload.map (fun w =>
          (w, (collector.map (fun c => construct_unit c "collector" kwargs)).flatMap
            (fun c => (if args = [] then [""] else args).map (fun a =>
              Job.mk c
                (postprocessor.map (fun p =>
                  construct_unit p "postprocessor" kwargs)) b w a)))))))) := rfl
  have hvarnodup : (if args = [] then [""] else args).Nodup := by
    by_cases he : args = []
    · rw [if_pos he]
      simp
    · rw [if_neg he]
      exact hargs
  constructor
  · intro b hb w hw
    refine ⟨(collector.map (fun c => construct_unit c "collector" kwargs)).flatMap
      (fun c => (if args = [] then [""] else args).map (fun a =>
        Job.mk c (postprocessor.map (fun p =>
          construct_unit p "postprocessor" kwargs)) b w a)), ?_, ?_, ?_⟩
    · rw [hm1, pyDict_map_get (fun b' =>
        pyDict (workload.map (fun w' =>
          (w', (collector.map (fun c => construct_unit c "collector" kwargs)).flatMap
            (fun c => (if args = [] then [""] else args).map (fun a =>
              Job.mk c
                (postprocessor.map (fun p =>
                  construct_unit p "postprocessor" kwargs)) b' w' a))))))
        cmd hcmd b hb]
      rw [Option.some_bind]
      exact pyDict_map_get (fun w' =>
        (collector.map (fun c => construct_unit c "collector" kwargs)).flatMap
          (fun c => (if args = [] then [""] else args).map (fun a =>
            Job.mk c
              (postprocessor.map (fun p =>
                construct_unit p "postprocessor" kwargs)) b w' a)))
        workload hwl w hw
    · intro c hc a ha
      rw [List.count_flatMap]
      have hinj2 : Function.Injective
          (fun c' => construct_unit c' "collector" kwargs) := by
        intro x y hxy
        exact congrArg Unit.name hxy
      have hpoint : ∀ cu' ∈ collector.map (fun c' =>
            construct_unit c' "collector" kwargs),
          (List.count (Job.mk (construct_unit c "collector" kwargs)
              (postprocessor.map (fun p => construct_unit p "postprocessor" kwargs))
              b w a) ∘
            (fun c' => (if args = [] then [""] else args).map (fun a' =>
              Job.mk c' (postprocessor.map (fun p =>
                construct_unit p "postprocessor" kwargs)) b w a'))) cu' =
            if cu' = construct_unit c "collector" kwargs then 1 else 0 := by
        intro cu' _
        by_cases hcc : cu' = construct_unit c "collector" kwargs
        · subst hcc
          rw [if_pos rfl]
          have hinja : Function.Injective (fun a' =>
              Job.mk (construct_unit c "collector" kwargs)
                (postprocessor.map (fun p =>
                  construct_unit p "postprocessor" kwargs)) b w a') := by
            intro x y hxy
            exact congrArg Job.args hxy
          have := List.count_map_of_injective
            (if args = [] then [""] else args) _ hinja a
          simp only [Function.comp] at this ⊢
          rw [this]
          exact List.count_eq_one_of_mem hvarnodup ha
        · rw [if_neg hcc]
          simp only [Function.comp]
          rw [List.count_eq_zero]
          intro hmem
          rw [List.mem_map] at hmem
          obtain ⟨a', _, heq⟩ := hmem
          exact hcc (congrArg Job.collector heq)
      rw [List.map_congr_left hpoint, sum_ite_count]
      have := List.count_map_of_injective collector _ hinj2 c
      rw [this]
      exact List.count_eq_one_of_mem hcol hc
    · intro j hj
      rw [List.mem_flatMap] at hj
      obtain ⟨cu', hcu', hj⟩ := hj
      rw [List.mem_map] at hcu'
      obtain ⟨c, hc, rfl⟩ := hcu'
      rw [List.mem_map] at hj
      obtain ⟨a, ha, rfl⟩ := hj
      exact ⟨rfl, c, hc, a, ha, rfl⟩
  · have hn : (construct_job_matrix cmd args workload collector
        postprocessor kwargs).2 =
        (construct_job_matrix cmd args workload collector
          postprocessor kwargs).1.foldl (fun acc bv =>
            bv.2.foldl (fun acc2 wv =>
              wv.2.foldl (fun acc3 j => acc3 + (1 + j.postprocessors.length))
                acc2) acc) 0 := rfl
    rw [hn]
    have h2 : ∀ (wvs : List (String × List Job)) (acc : Nat),
        wvs.foldl (fun acc2 wv =>
          wv.2.foldl (fun acc3 j => acc3 + (1 + j.postprocessors.length)) acc2)
          acc =
        acc + (wvs.map (fun wv =>
          (wv.2.map (fun j => 1 + j.postprocessors.length)).sum)).sum := by
      intro wvs
      induction wvs with
      | nil => intro acc; simp
      | cons wv rest ih =>
        intro acc
        rw [List.foldl_cons, foldl_add_jobs wv.2 acc, ih, List.map_cons,
          List.sum_cons]
        omega
    have h3 : ∀ (m : List (String × List (String × List Job))) (acc : Nat),
        m.foldl (fun acc bv =>
          bv.2.foldl (fun acc2 wv =>
            wv.2.foldl (fun acc3 j => acc3 + (1 + j.postprocessors.length))
              acc2) acc) acc =
        acc + (m.map (fun bv => (bv.2.map (fun wv =>
          (wv.2.map (fun j => 1 + j.postprocessors.length)).sum)).sum)).sum := by
      intro m
      induction m with
      | nil => intro acc; simp
      | cons bv rest ih =>
        intro acc
        rw [List.foldl_cons, h2 bv.2 acc, ih, List.map_cons, List.sum_cons]
        omega
    rw [h3]
    simp

/-- Concrete configuration used to witness the matrix-builder theorem. -/
def wKwargs : Kwargs :=
  [("collector_params", [("time", [("warmup", "3")])])]

theorem construct_job_matrix_spec_witness :
    (["bin"] : List String).Nodup ∧ ([] : List String).Nodup ∧
    (["w1"] : List String).Nodup ∧ (["time"] : List String).Nodup ∧
    ((∀ b ∈ ["bin"], ∀ w ∈ ["w1"],
      ∃ jobs : List Job,
        (dictGet (construct_job_matrix ["bin"] [] ["w1"] ["time"] ["norm"]
            wKwargs).1 b).bind
          (fun inner => dictGet inner w) = some jobs ∧
        (∀ c ∈ ["time"], ∀ a ∈ (if ([] : List String) = [] then [""] else []),
          jobs.count (Job.mk (construct_unit c "collector" wKwargs)
            ((["norm"] : List String).map (fun p =>
              construct_unit p "postprocessor" wKwargs))
            b w a) = 1) ∧
        (∀ j ∈ jobs,
          j.postprocessors =
            (["norm"] : List String).map (fun p =>
              construct_unit p "postprocessor" wKwargs) ∧
          ∃ c ∈ ["time"], ∃ a ∈ (if ([] : List String) = [] then [""] else []),
            j = Job.mk (construct_unit c "collector" wKwargs)
              ((["norm"] : List String).map (fun p =>
                construct_unit p "postprocessor" wKwargs))
              b w a)) ∧
    (construct_job_matrix ["bin"] [] ["w1"] ["time"] ["norm"] wKwargs).2 =
      ((construct_job_matrix ["bin"] [] ["w1"] ["time"] ["norm"] wKwargs).1.map
        (fun bv => (bv.2.map (fun wv =>
          (wv.2.map (fun j => 1 + j.postprocessors.length)).sum)).sum)).sum) :=
  ⟨by decide, by decide, by decide, by decide,
   construct_job_matrix_spec ["bin"] [] ["w1"] ["time"] ["norm"] wKwargs
     (by decide) (by decide) (by decide) (by decide)⟩

end Perun
